import Mathlib

/-!
Shallow embedding of the `lz-solana-decode` repository (two TypeScript
sources: `src/index.ts`, a targeted/batch CLI resolver, and an unnamed
pair of scripts: an enumerate script and a brute-force scanner).

Conventions of the embedding:
* a byte buffer (`Buffer` / `Uint8Array`) is a `List Nat` of byte values;
* an on-ledger address (`PublicKey`) is its 32-byte buffer, a `List Nat`;
* the ledger's deterministic address derivation
  (`PublicKey.findProgramAddressSync`, an external collaborator per the
  design) is a parameter `fpa : List (List Nat) → List Nat → List Nat`
  mapping a seed list and a program identifier to an address;
* the RPC fetch (`conn.getAccountInfo`) is a parameter
  `fetch : List Nat → Option (List Nat)`;
* hex rendering is modelled down to characters, matching
  `Buffer.toString("hex")` (lowercase, two chars per byte).
-/

/-- One lowercase hex digit, as produced by `Buffer.toString("hex")`. -/
def hexDigit (n : Nat) : Char :=
  if n < 10 then Char.ofNat (48 + n) else Char.ofNat (87 + n)

/-- The two lowercase hex characters of one byte. -/
def hexCharsOfByte (n : Nat) : List Char :=
  [hexDigit (n / 16 % 16), hexDigit (n % 16)]

/-- `hex(u) = "0x" + Buffer.from(u).toString("hex")` from the sources. -/
def hex (u : List Nat) : String :=
  "0x" ++ String.mk ((u.map hexCharsOfByte).flatten)

/-- `bytes32ToEvm(b32) = "0x" + hex of b32.slice(12)` from the sources:
drop the 12 zero-padding bytes, hex the 20-byte tail. -/
def bytes32ToEvm (b32 : List Nat) : String :=
  "0x" ++ String.mk (((b32.drop 12).map hexCharsOfByte).flatten)

/-- `u32LE(n)`: the 4-byte little-endian serialization of a u32
(`Buffer.writeUInt32LE`). -/
def u32LE (n : Nat) : List Nat :=
  [n % 256, n / 256 % 256, n / 65536 % 256, n / 16777216 % 256]

/-- `u32BE(n)`: the 4-byte big-endian serialization of a u32
(`Buffer.writeUInt32BE`). -/
def u32BE (n : Nat) : List Nat :=
  [n / 16777216 % 256, n / 65536 % 256, n / 256 % 256, n % 256]

/-- `looksLikeBytes32EvmAddress` from the scanner script: a 32-byte slice
whose first 12 bytes are all zero and whose last 20 bytes are not all
zero. -/
def looksLikeBytes32EvmAddress (s : List Nat) : Bool :=
  s.length == 32 && (s.take 12).all (· == 0) && !((s.drop 12).all (· == 0))

/-- `extractPeerBytes32` from `src/index.ts`: slide a 32-byte window from
offset 0 upward; at the first window whose 12-byte head is all zero and
whose 20-byte tail is not all zero, return that window; otherwise null. -/
def extractPeerBytes32 : List Nat → Option (List Nat)
  | [] => none
  | d@(_ :: rest) =>
    if d.length < 32 then none
    else if ((d.take 32).take 12).all (· == 0) && !(((d.take 32).drop 12).all (· == 0)) then
      some (d.take 32)
    else extractPeerBytes32 rest

/-- One candidate produced by the scanner: byte offset, the hex of the
full 32-byte window, and the hex of the 20-byte tail (the EVM address). -/
structure PeerCand where
  off : Nat
  b32 : String
  evm : String
deriving Repr, DecidableEq

/-- The body of `extractAllEvmPeers`'s loop: push a candidate unless one
with the same `evm` string is already in the output (`out.find`). -/
def pushDedup (out : List PeerCand) (c : PeerCand) : List PeerCand :=
  if out.any (fun x => x.evm == c.evm) then out else out ++ [c]

/-- The loop of `extractAllEvmPeers` from the scanner script, with the
current suffix of the buffer, the current offset and the accumulated
output. -/
def extractAllEvmPeersAux : List Nat → Nat → List PeerCand → List PeerCand
  | [], _, out => out
  | d@(_ :: rest), off, out =>
    if d.length < 32 then out
    else extractAllEvmPeersAux rest (off + 1)
      (if looksLikeBytes32EvmAddress (d.take 32) then
        pushDedup out ⟨off, hex (d.take 32), bytes32ToEvm (d.take 32)⟩
      else out)

/-- `extractAllEvmPeers` from the scanner script: every 32-byte window
matching the predicate, deduplicated by decoded EVM-address string,
keeping the first (lowest-offset) hit. -/
def extractAllEvmPeers (data : List Nat) : List PeerCand :=
  extractAllEvmPeersAux data 0 []

/-- All matching windows of a buffer with their offsets, in ascending
offset order and without deduplication: the reference enumeration that
the two source extractors are proved against. -/
def allMatches : List Nat → Nat → List (Nat × List Nat)
  | [], _ => []
  | d@(_ :: rest), off =>
    if d.length < 32 then []
    else
      (if looksLikeBytes32EvmAddress (d.take 32) then [(off, d.take 32)] else [])
        ++ allMatches rest (off + 1)

/-- The candidate record built from a matched window. -/
def candOf (p : Nat × List Nat) : PeerCand :=
  ⟨p.1, hex p.2, bytes32ToEvm p.2⟩

/-- Deduplication keyed on the decoded EVM-address string, keeping the
first occurrence. -/
def dedupKeepFirst : List PeerCand → List PeerCand
  | [] => []
  | c :: cs => c :: dedupKeepFirst (cs.filter (fun x => x.evm != c.evm))
termination_by l => l.length
decreasing_by
  simp only [List.length_cons]
  exact Nat.lt_succ_of_le (List.length_filter_le _ _)

/-- An on-ledger address: its 32-byte buffer (`PublicKey`). -/
abbrev Addr := List Nat

/-- An account's raw data buffer. -/
abbrev Buf := List Nat

/-- The external derivation primitive `PublicKey.findProgramAddressSync`
restricted to its first component: seeds and program identifier to the
derived address. -/
abbrev Fpa := List (List Nat) → Addr → Addr

/-- The external RPC fetch `conn.getAccountInfo`: address to buffer or
absent. -/
abbrev Fetch := Addr → Option Buf

/-- The bytes of the seed label `"Store"`. -/
def storeSeed : List Nat := [83, 116, 111, 114, 101]

/-- The bytes of the seed label `"Peer"`. -/
def peerSeed : List Nat := [80, 101, 101, 114]

/-- `deriveStorePda` from both sources: the program-derived address with
the single seed `"Store"`. -/
def deriveStorePda (fpa : Fpa) (programId : Addr) : Addr :=
  fpa [storeSeed] programId

/-- The byte order used to serialize the numeric chain id into the
derivation seed. -/
inductive Endian
  | LE
  | BE
deriving Repr, DecidableEq

/-- `peerPdaFor` from the enumerate script: the peer-record address for a
given chain id under a given byte order. -/
def peerPdaFor (fpa : Fpa) (programId store : Addr) (eid : Nat) (endian : Endian) : Addr :=
  let seedEid := match endian with
    | .LE => u32LE eid
    | .BE => u32BE eid
  fpa [peerSeed, store, seedEid] programId

/-- The result record of `derivePeerPda` from `src/index.ts`. -/
structure PeerLookup where
  pda : Option Addr
  ai : Option Buf
  endian : Option Endian
deriving Repr, DecidableEq

/-- `derivePeerPda` from `src/index.ts`: derive both byte-order
addresses, fetch the little-endian one first and return it when a buffer
is present; otherwise fetch the big-endian one; otherwise report nothing
found. -/
def derivePeerPda (fpa : Fpa) (fetch : Fetch) (programId store : Addr) (eid : Nat) :
    PeerLookup :=
  let pLE := fpa [peerSeed, store, u32LE eid] programId
  let pBE := fpa [peerSeed, store, u32BE eid] programId
  match fetch pLE with
  | some aiLE => ⟨some pLE, some aiLE, some .LE⟩
  | none =>
    match fetch pBE with
    | some aiBE => ⟨some pBE, some aiBE, some .BE⟩
    | none => ⟨none, none, none⟩

/-- The per-identifier result row produced by `readOne` in
`src/index.ts`. -/
structure Row where
  eid : Nat
  peerPda : Option Addr
  exists_ : Bool
  endian : Option Endian
  bytes32 : Option String
  evm : Option String
deriving Repr, DecidableEq

/-- The body of `readOne` after the lookup: run the single-best
extraction when a buffer is present and render the fields. -/
def rowOfLookup (eid : Nat) (peer : PeerLookup) : Row :=
  let peerB32 : Option (List Nat) := match peer.ai with
    | some d => extractPeerBytes32 d
    | none => none
  ⟨eid, peer.pda, peer.ai.isSome, peer.endian, peerB32.map hex, peerB32.map bytes32ToEvm⟩

/-- `readOne` from `src/index.ts`: targeted lookup of one chain id. -/
def readOne (fpa : Fpa) (fetch : Fetch) (programId store : Addr) (eid : Nat) : Row :=
  rowOfLookup eid (derivePeerPda fpa fetch programId store eid)

/-- The built-in candidate chain ids of the enumerate script. -/
def CANDIDATE_EIDS : List Nat :=
  [30101, 30102, 30106, 30109, 30110, 30111, 30145, 30168, 30184]

/-- One row of the enumerate script before attribution: the account, its
data length, and the hex renderings of the 32 bytes at offset 8. -/
structure EnumRow where
  acc : Addr
  dataLen : Nat
  peerBytes32 : String
  peerEvm : String
deriving Repr, DecidableEq

/-- The enumerate script's filter: keep the accounts whose buffer length
equals the empirically observed record length 1654. -/
def candidatesOf (accs : List (Addr × Buf)) : List (Addr × Buf) :=
  accs.filter (fun a => a.2.length == 1654)

/-- The enumerate script's row construction: read the 32 bytes at the
fixed offset 8 (`data.subarray(8, 8 + 32)`) as the peer value. -/
def rowsOf (cands : List (Addr × Buf)) : List EnumRow :=
  cands.map (fun a =>
    let peerB32 := (a.2.drop 8).take 32
    ⟨a.1, a.2.length, hex peerB32, bytes32ToEvm peerB32⟩)

/-- One attributed (or unattributed, `eid = -1`) entry of the enumerate
script's `resolved` list. -/
structure ResolvedRow where
  eid : Int
  endian : Endian
  acc : Addr
  peerEvm : String
  peerBytes32 : String
deriving Repr, DecidableEq

/-- The inner attribution loop of the enumerate script: for each
candidate chain id, in list order, compare the little-endian derived
address and then the big-endian one against the account's address,
stopping at the first hit. -/
def attrLoop (fpa : Fpa) (programId store acc : Addr) : List Nat → Option (Nat × Endian)
  | [] => none
  | eid :: rest =>
    if peerPdaFor fpa programId store eid .LE = acc then some (eid, .LE)
    else if peerPdaFor fpa programId store eid .BE = acc then some (eid, .BE)
    else attrLoop fpa programId store acc rest

/-- Attribution of one row: a matched candidate id with its byte order,
or the unattributed marker `eid = -1` (rendered `UNKNOWN_EID`), which the
script records with endian `LE`. -/
def attributeRow (fpa : Fpa) (programId store : Addr) (cands : List Nat) (r : EnumRow) :
    ResolvedRow :=
  match attrLoop fpa programId store r.acc cands with
  | some (eid, e) => ⟨(eid : Int), e, r.acc, r.peerEvm, r.peerBytes32⟩
  | none => ⟨-1, .LE, r.acc, r.peerEvm, r.peerBytes32⟩

/-- The enumerate script's `resolved` list: every length-1654 account's
row, attributed against the candidate set; nothing is dropped. -/
def resolvedOf (fpa : Fpa) (programId store : Addr) (cands : List Nat)
    (accs : List (Addr × Buf)) : List ResolvedRow :=
  (rowsOf (candidatesOf accs)).map (attributeRow fpa programId store cands)

/-- `resolved.sort((a, b) => a.eid - b.eid)`: the stable ascending sort
by `eid` performed before printing (`Array.prototype.sort` is stable). -/
def sortByEid (l : List ResolvedRow) : List ResolvedRow :=
  List.insertionSort (fun a b => a.eid ≤ b.eid) l

/-- The enumerate script's printed order: the resolved list sorted
ascending by chain id. -/
def enumerateOutput (fpa : Fpa) (programId store : Addr) (cands : List Nat)
    (accs : List (Addr × Buf)) : List ResolvedRow :=
  sortByEid (resolvedOf fpa programId store cands accs)

/-- `rows.sort((a, b) => a.eid - b.eid)` of `src/index.ts` batch mode. -/
def sortRowsByEid (l : List Row) : List Row :=
  List.insertionSort (fun a b => a.eid ≤ b.eid) l

instance : IsTotal ResolvedRow (fun a b => a.eid ≤ b.eid) :=
  ⟨fun a b => Int.le_total a.eid b.eid⟩

instance : IsTrans ResolvedRow (fun a b => a.eid ≤ b.eid) :=
  ⟨fun _ _ _ h1 h2 => le_trans h1 h2⟩

instance : IsTotal Row (fun a b => a.eid ≤ b.eid) :=
  ⟨fun a b => Nat.le_total a.eid b.eid⟩

instance : IsTrans Row (fun a b => a.eid ≤ b.eid) :=
  ⟨fun _ _ _ h1 h2 => Nat.le_trans h1 h2⟩

/-- A fetch that can also fail (a thrown RPC error), for the batch-mode
error-handling model. -/
abbrev FetchE := Addr → Except String (Option Buf)

/-- `derivePeerPda` under a fallible fetch: a throw inside either
`getAccountInfo` call propagates out. -/
def derivePeerPdaE (fpa : Fpa) (fetch : FetchE) (programId store : Addr) (eid : Nat) :
    Except String PeerLookup :=
  let pLE := fpa [peerSeed, store, u32LE eid] programId
  let pBE := fpa [peerSeed, store, u32BE eid] programId
  match fetch pLE with
  | .error e => .error e
  | .ok (some aiLE) => .ok ⟨some pLE, some aiLE, some .LE⟩
  | .ok none =>
    match fetch pBE with
    | .error e => .error e
    | .ok (some aiBE) => .ok ⟨some pBE, some aiBE, some .BE⟩
    | .ok none => .ok ⟨none, none, none⟩

/-- `readOne` under a fallible fetch. -/
def readOneE (fpa : Fpa) (fetch : FetchE) (programId store : Addr) (eid : Nat) :
    Except String Row :=
  (derivePeerPdaE fpa fetch programId store eid).map (rowOfLookup eid)

/-- The batch loop of `src/index.ts`: for each chain id, try `readOne`
and keep the row when the account exists; a thrown error is caught by an
empty catch block — the item is skipped, nothing is printed, and the
loop continues. The second component collects the console lines the loop
body emits (the empty catch block emits none). -/
def batchLoop (fpa : Fpa) (fetch : FetchE) (programId store : Addr) :
    List Nat → List Row × List String
  | [] => ([], [])
  | eid :: rest =>
    match readOneE fpa fetch programId store eid with
    | .ok r =>
      let p := batchLoop fpa fetch programId store rest
      ((if r.exists_ then [r] else []) ++ p.1, p.2)
    | .error _ => batchLoop fpa fetch programId store rest

/-- `arg.startsWith("--")` from `parseArgs`, on the character list. -/
def startsDashDash (s : String) : Bool :=
  s.toList.take 2 == ['-', '-']

/-- `arg.slice(2)` from `parseArgs`. -/
def jsSlice2 (s : String) : String :=
  String.mk (s.toList.drop 2)

/-- `Map.set`: later writes win on lookup; modelled by prepending. -/
def setKV (m : List (String × String)) (k v : String) : List (String × String) :=
  (k, v) :: m

/-- `Map.get`: the value of the most recent write for the key. -/
def getKV (m : List (String × String)) (k : String) : Option String :=
  (m.find? (fun p => p.1 == k)).map (fun p => p.2)

/-- The collection loop of `parseArgs` from `src/index.ts`: a `--key`
token followed by a truthy token that does not itself start with `--`
consumes that token as its value; otherwise the string `"true"` is
stored; tokens not starting with `--` are skipped. -/
def collectArgs : List String → List (String × String) → List (String × String)
  | [], m => m
  | arg :: rest, m =>
    if startsDashDash arg then
      let key := jsSlice2 arg
      match rest with
      | [] => setKV m key "true"
      | next :: rest2 =>
        if next != "" && !startsDashDash next then
          collectArgs rest2 (setKV m key next)
        else
          collectArgs (next :: rest2) (setKV m key "true")
    else collectArgs rest m

/-- The digit run consumed by `parseInt(s, 10)` and its value; empty run
means `NaN`. -/
def digitsVal (cs : List Char) : Option Nat :=
  let ds := cs.takeWhile Char.isDigit
  if ds.isEmpty then none
  else some (ds.foldl (fun acc c => acc * 10 + (c.toNat - 48)) 0)

/-- `parseInt(s, 10)`: skip leading whitespace, take an optional sign
and the leading digit run; `none` models `NaN`. -/
def jsParseInt10 (s : String) : Option Int :=
  match s.toList.dropWhile Char.isWhitespace with
  | '-' :: t => (digitsVal t).map (fun n => -(n : Int))
  | '+' :: t => (digitsVal t).map (fun n => (n : Int))
  | t => (digitsVal t).map (fun n => (n : Int))

/-- The parsed CLI arguments of `src/index.ts`. -/
structure Args where
  rpc : String
  program : String
  eid : Option Int
  list : Bool
  eidlist : Option String
  json : Bool
deriving Repr, DecidableEq

/-- `parseArgs` from `src/index.ts`; `none` models the usage message and
`process.exit(1)` when `--program` is missing or empty. The
`Number.isFinite` guard drops exactly the `NaN` case of `parseInt`. -/
def parseArgs (argv : List String) : Option Args :=
  let m := collectArgs argv []
  let program := (getKV m "program").getD ""
  if program == "" then none
  else
    some
      { rpc := (getKV m "rpc").getD "https://api.mainnet-beta.solana.com"
        program := program
        eid := match getKV m "eid" with
          | some s => jsParseInt10 s
          | none => none
        list := ((getKV m "list").getD "false") == "true"
        eidlist := getKV m "eidlist"
        json := ((getKV m "json").getD "false") == "true" }

/-- A buffer shorter than the window leaves the scanner's accumulator
untouched. -/
theorem extractAllEvmPeersAux_short (d : List Nat) (off : Nat) (out : List PeerCand)
    (h : d.length < 32) : extractAllEvmPeersAux d off out = out := by
  cases d with
  | nil => rfl
  | cons a rest =>
    show (if (a :: rest).length < 32 then out else _) = out
    rw [if_pos h]

/-- A buffer shorter than the window yields no single-best candidate. -/
theorem extractPeerBytes32_short (d : List Nat) (h : d.length < 32) :
    extractPeerBytes32 d = none := by
  cases d with
  | nil => rfl
  | cons a rest =>
    show (if (a :: rest).length < 32 then none else _) = none
    rw [if_pos h]

/-- A buffer shorter than the window has no matching windows. -/
theorem allMatches_short (d : List Nat) (off : Nat) (h : d.length < 32) :
    allMatches d off = [] := by
  cases d with
  | nil => rfl
  | cons a rest =>
    show (if (a :: rest).length < 32 then [] else _) = []
    rw [if_pos h]

/-- On a buffer that is exactly one matching window, the single-best
extractor returns that window and the full enumeration returns exactly
that one candidate at offset 0. -/
theorem extract_single_window (d : List Nat) (h : d.length = 32)
    (hhead : (d.take 12).all (· == 0) = true)
    (htail : (d.drop 12).all (· == 0) = false) :
    extractPeerBytes32 d = some d
      ∧ extractAllEvmPeers d = [⟨0, hex d, bytes32ToEvm d⟩] := by
  obtain ⟨a, rest, rfl⟩ : ∃ a rest, d = a :: rest := by
    cases d with
    | nil => simp at h
    | cons a r => exact ⟨a, r, rfl⟩
  have h31 : rest.length = 31 := by simpa using h
  have hnl : ¬((a :: rest).length < 32) := by omega
  have htake : (a :: rest).take 32 = a :: rest := by
    rw [← h]; exact List.take_length _
  have hlook : looksLikeBytes32EvmAddress (a :: rest) = true := by
    unfold looksLikeBytes32EvmAddress
    rw [hhead, htail]
    simp [h]
  have hcond : (((a :: rest).take 12).all (· == 0)
      && !(((a :: rest).drop 12).all (· == 0))) = true := by
    rw [hhead, htail]; rfl
  refine ⟨?_, ?_⟩
  · show (if (a :: rest).length < 32 then none
        else if (((a :: rest).take 32).take 12).all (· == 0)
            && !((((a :: rest).take 32).drop 12).all (· == 0)) then
          some ((a :: rest).take 32)
        else extractPeerBytes32 rest) = some (a :: rest)
    rw [if_neg hnl, htake, if_pos hcond]
  · have hrest : extractAllEvmPeersAux rest 1 [⟨0, hex (a :: rest), bytes32ToEvm (a :: rest)⟩]
        = [⟨0, hex (a :: rest), bytes32ToEvm (a :: rest)⟩] :=
      extractAllEvmPeersAux_short _ _ _ (by omega)
    show (if (a :: rest).length < 32 then []
        else extractAllEvmPeersAux rest (0 + 1)
          (if looksLikeBytes32EvmAddress ((a :: rest).take 32) then
            pushDedup [] ⟨0, hex ((a :: rest).take 32), bytes32ToEvm ((a :: rest).take 32)⟩
          else [])) = [⟨0, hex (a :: rest), bytes32ToEvm (a :: rest)⟩]
    rw [if_neg hnl, htake, if_pos hlook]
    exact hrest

/-- C4: the extraction predicate is sound: an all-zero 32-byte window
never yields a candidate (under either extractor), and a buffer that is
a single 32-byte window whose only non-zero byte is at position 31
yields exactly one candidate. -/
theorem C4_extraction_predicate_soundness :
    looksLikeBytes32EvmAddress (List.replicate 32 0) = false
    ∧ extractPeerBytes32 (List.replicate 32 0) = none
    ∧ extractAllEvmPeers (List.replicate 32 0) = []
    ∧ ∀ v : Nat, v ≠ 0 →
        extractPeerBytes32 (List.replicate 31 0 ++ [v])
            = some (List.replicate 31 0 ++ [v])
        ∧ (extractAllEvmPeers (List.replicate 31 0 ++ [v])).length = 1 := by
  refine ⟨by decide, by decide, by decide, ?_⟩
  intro v hv
  have h : (List.replicate 31 0 ++ [v]).length = 32 := by simp
  have hhead : ((List.replicate 31 0 ++ [v]).take 12).all (· == 0) = true := by
    have : (List.replicate 31 (0 : Nat) ++ [v]).take 12 = List.replicate 12 0 := by
      rw [List.take_append_of_le_length (by simp)]
      simp [List.take_replicate]
    simp [this]
  have htail : ((List.replicate 31 0 ++ [v]).drop 12).all (· == 0) = false := by
    have : (List.replicate 31 (0 : Nat) ++ [v]).drop 12 = List.replicate 19 0 ++ [v] := by
      rw [List.drop_append_of_le_length (by simp)]
      simp [List.drop_replicate]
    simp [this, hv]
  have hmain := extract_single_window _ h hhead htail
  exact ⟨hmain.1, by rw [hmain.2]; rfl⟩

/-- C4 witness: the single-window instance at byte value 171. -/
theorem C4_extraction_predicate_soundness_witness :
    extractPeerBytes32 (List.replicate 31 0 ++ [171])
        = some (List.replicate 31 0 ++ [171])
    ∧ (extractAllEvmPeers (List.replicate 31 0 ++ [171])).length = 1 :=
  C4_extraction_predicate_soundness.2.2.2 171 (by decide)

/-- C7: both extractors are total and stateless: on a buffer shorter
than 32 bytes they return the empty enumeration and no single-best
candidate, and (being pure functions of the unchanged input buffer)
repeated runs on the same buffer agree. -/
theorem C7_extractor_total_and_stateless :
    ∀ data : List Nat,
      (data.length < 32 →
        extractAllEvmPeers data = [] ∧ extractPeerBytes32 data = none)
      ∧ extractAllEvmPeers data = extractAllEvmPeers data
      ∧ extractPeerBytes32 data = extractPeerBytes32 data := by
  intro data
  exact ⟨fun h => ⟨extractAllEvmPeersAux_short _ _ _ h, extractPeerBytes32_short _ h⟩,
    rfl, rfl⟩

/-- Unfolding equation of the single-best extractor on a non-empty
buffer. -/
theorem extractPeerBytes32_cons (a : Nat) (rest : List Nat) :
    extractPeerBytes32 (a :: rest)
      = if (a :: rest).length < 32 then none
        else if (((a :: rest).take 32).take 12).all (· == 0)
            && !((((a :: rest).take 32).drop 12).all (· == 0)) then
          some ((a :: rest).take 32)
        else extractPeerBytes32 rest := rfl

/-- Unfolding equation of the match enumeration on a non-empty buffer. -/
theorem allMatches_cons (a : Nat) (rest : List Nat) (off : Nat) :
    allMatches (a :: rest) off
      = if (a :: rest).length < 32 then []
        else (if looksLikeBytes32EvmAddress ((a :: rest).take 32)
            then [(off, (a :: rest).take 32)] else [])
          ++ allMatches rest (off + 1) := rfl

/-- Unfolding equation of the scanner loop on a non-empty buffer. -/
theorem extractAllEvmPeersAux_cons (a : Nat) (rest : List Nat) (off : Nat)
    (out : List PeerCand) :
    extractAllEvmPeersAux (a :: rest) off out
      = if (a :: rest).length < 32 then out
        else extractAllEvmPeersAux rest (off + 1)
          (if looksLikeBytes32EvmAddress ((a :: rest).take 32) then
            pushDedup out ⟨off, hex ((a :: rest).take 32), bytes32ToEvm ((a :: rest).take 32)⟩
          else out) := rfl

/-- Unfolding equations of the first-occurrence deduplication. -/
theorem dedupKeepFirst_nil : dedupKeepFirst [] = [] := by
  simp [dedupKeepFirst]

/-- On a cons cell the deduplication keeps the head and recurses on the
tail with all equal-valued candidates removed. -/
theorem dedupKeepFirst_cons (c : PeerCand) (cs : List PeerCand) :
    dedupKeepFirst (c :: cs) = c :: dedupKeepFirst (cs.filter (fun x => x.evm != c.evm)) := by
  simp [dedupKeepFirst]

/-- When a buffer is not shorter than the window, the scanner's window
predicate coincides with the inline predicate of `src/index.ts`. -/
theorem looksLike_take (d : List Nat) (h : ¬ d.length < 32) :
    looksLikeBytes32EvmAddress (d.take 32)
      = (((d.take 32).take 12).all (· == 0) && !(((d.take 32).drop 12).all (· == 0))) := by
  have hlen : (d.take 32).length = 32 := by
    rw [List.length_take]; omega
  unfold looksLikeBytes32EvmAddress
  rw [hlen]
  simp

/-- C5 half 1, general form: the targeted single-best extractor returns
exactly the first matching window in ascending offset order, or none. -/
theorem extractPeerBytes32_eq_head (d : List Nat) (off : Nat) :
    extractPeerBytes32 d = ((allMatches d off).head?).map Prod.snd := by
  induction d generalizing off with
  | nil => rfl
  | cons a rest ih =>
    rw [extractPeerBytes32_cons, allMatches_cons]
    by_cases h : (a :: rest).length < 32
    · rw [if_pos h, if_pos h]; rfl
    · rw [if_neg h, if_neg h, looksLike_take _ h]
      by_cases hm : ((((a :: rest).take 32).take 12).all (· == 0)
          && !((((a :: rest).take 32).drop 12).all (· == 0))) = true
      · rw [if_pos hm, if_pos hm]; rfl
      · rw [if_neg hm, if_neg hm]
        simpa using ih (off + 1)

/-- Commuting a negated membership test with a value-inequality test. -/
theorem bool_and_bne_comm (A : Bool) (s t : String) :
    (!A && !(t == s)) = ((s != t) && !A) := by
  by_cases hc : s = t
  · simp [hc]
  · have hts : (t == s) = false := by
      simp only [beq_eq_false_iff_ne, ne_eq]
      exact fun he => hc he.symm
    have hst : (s != t) = true := bne_iff_ne.mpr hc
    rw [hts, hst]
    simp

/-- The scanner loop splits into the pure enumeration of matches and the
first-occurrence deduplication relative to the accumulator. -/
theorem extractAux_eq_dedup (d : List Nat) :
    ∀ (off : Nat) (out : List PeerCand),
      extractAllEvmPeersAux d off out
        = out ++ dedupKeepFirst (((allMatches d off).map candOf).filter
            (fun c => !(out.any (fun x => x.evm == c.evm)))) := by
  induction d with
  | nil =>
    intro off out
    simp [extractAllEvmPeersAux, allMatches, dedupKeepFirst_nil]
  | cons a rest ih =>
    intro off out
    rw [extractAllEvmPeersAux_cons, allMatches_cons]
    by_cases h : (a :: rest).length < 32
    · rw [if_pos h, if_pos h]
      simp [dedupKeepFirst_nil]
    · rw [if_neg h, if_neg h]
      by_cases hl : looksLikeBytes32EvmAddress ((a :: rest).take 32) = true
      · rw [if_pos hl, if_pos hl, List.singleton_append, List.map_cons]
        have hproj : (candOf (off, (a :: rest).take 32)).evm
            = bytes32ToEvm ((a :: rest).take 32) := rfl
        by_cases hmem : out.any
            (fun x => x.evm == bytes32ToEvm ((a :: rest).take 32)) = true
        · have hpush : pushDedup out
              ⟨off, hex ((a :: rest).take 32), bytes32ToEvm ((a :: rest).take 32)⟩ = out := by
            unfold pushDedup
            rw [if_pos hmem]
          have hcondf : (!(out.any
                (fun x => x.evm == (candOf (off, (a :: rest).take 32)).evm))) = false := by
            rw [hproj, hmem]
            rfl
          have hfilter : ((candOf (off, (a :: rest).take 32)
                :: (allMatches rest (off + 1)).map candOf).filter
                (fun c => !(out.any (fun x => x.evm == c.evm))))
              = ((allMatches rest (off + 1)).map candOf).filter
                  (fun c => !(out.any (fun x => x.evm == c.evm))) := by
            rw [List.filter_cons, if_neg (by rw [hcondf]; exact Bool.false_ne_true)]
          rw [hpush, hfilter, ih (off + 1) out]
        · have hmemf : out.any
              (fun x => x.evm == bytes32ToEvm ((a :: rest).take 32)) = false :=
            eq_false_of_ne_true hmem
          have hpush : pushDedup out
                ⟨off, hex ((a :: rest).take 32), bytes32ToEvm ((a :: rest).take 32)⟩
              = out ++ [⟨off, hex ((a :: rest).take 32), bytes32ToEvm ((a :: rest).take 32)⟩] := by
            unfold pushDedup
            rw [if_neg hmem]
          have hcondt : (!(out.any
                (fun x => x.evm == (candOf (off, (a :: rest).take 32)).evm))) = true := by
            rw [hproj, hmemf]
            rfl
          have hfilter : ((candOf (off, (a :: rest).take 32)
                :: (allMatches rest (off + 1)).map candOf).filter
                (fun c => !(out.any (fun x => x.evm == c.evm))))
              = candOf (off, (a :: rest).take 32)
                :: ((allMatches rest (off + 1)).map candOf).filter
                    (fun c => !(out.any (fun x => x.evm == c.evm))) := by
            rw [List.filter_cons, if_pos hcondt]
          have hpred : ((allMatches rest (off + 1)).map candOf).filter
                (fun c => !((out ++ [(⟨off, hex ((a :: rest).take 32),
                    bytes32ToEvm ((a :: rest).take 32)⟩ : PeerCand)]).any
                  (fun x => x.evm == c.evm)))
              = (((allMatches rest (off + 1)).map candOf).filter
                    (fun c => !(out.any (fun x => x.evm == c.evm)))).filter
                  (fun x => x.evm != (candOf (off, (a :: rest).take 32)).evm) := by
            rw [List.filter_filter]
            apply List.filter_congr
            intro c _
            simp only [List.any_append, List.any_cons, List.any_nil, Bool.or_false,
              Bool.not_or, hproj]
            exact bool_and_bne_comm _ _ _
          rw [hpush, hfilter, ih (off + 1) _, List.append_assoc, dedupKeepFirst_cons, hpred]
          rfl
      · rw [if_neg hl, if_neg hl, List.nil_append]
        exact ih (off + 1) out

/-- The scanner equals the enumeration of all matching windows followed
by first-occurrence deduplication keyed on the decoded address string. -/
theorem extractAllEvmPeers_eq_dedup (data : List Nat) :
    extractAllEvmPeers data = dedupKeepFirst ((allMatches data 0).map candOf) := by
  have h := extractAux_eq_dedup data 0 []
  simpa using h

/-- Every entry of the deduplicated list comes from the input list. -/
theorem dedupKeepFirst_subset (l : List PeerCand) :
    ∀ x ∈ dedupKeepFirst l, x ∈ l := by
  induction l using dedupKeepFirst.induct with
  | case1 => simp [dedupKeepFirst_nil]
  | case2 c cs ih =>
    rw [dedupKeepFirst_cons]
    intro x hx
    rcases List.mem_cons.mp hx with h | h
    · exact h ▸ List.mem_cons_self _ _
    · exact List.mem_cons_of_mem _ (List.mem_of_mem_filter (ih x h))

/-- The deduplicated list has pairwise distinct decoded address
strings. -/
theorem dedupKeepFirst_nodup (l : List PeerCand) :
    ((dedupKeepFirst l).map (fun c => c.evm)).Nodup := by
  induction l using dedupKeepFirst.induct with
  | case1 => simp [dedupKeepFirst_nil]
  | case2 c cs ih =>
    rw [dedupKeepFirst_cons]
    rw [List.map_cons, List.nodup_cons]
    refine ⟨?_, ih⟩
    intro hmem
    rcases List.mem_map.mp hmem with ⟨x, hx, hevm⟩
    have := List.of_mem_filter (dedupKeepFirst_subset _ x hx)
    rw [hevm] at this
    simp at this

/-- C5: in full-enumeration mode the scanner yields the matching windows
in ascending offset order with candidates of equal decoded 20-byte value
collapsed to the first (lowest-offset) occurrence — the value string,
not the offset, is the key — so the output values are pairwise distinct;
in single-best mode the extractor returns the first match scanning from
offset 0 upward, or none. -/
theorem C5_dedup_and_single_best :
    ∀ data : List Nat,
      extractAllEvmPeers data = dedupKeepFirst ((allMatches data 0).map candOf)
      ∧ ((extractAllEvmPeers data).map (fun c => c.evm)).Nodup
      ∧ extractPeerBytes32 data = ((allMatches data 0).head?).map Prod.snd := by
  intro data
  refine ⟨extractAllEvmPeers_eq_dedup data, ?_, extractPeerBytes32_eq_head data 0⟩
  rw [extractAllEvmPeers_eq_dedup data]
  exact dedupKeepFirst_nodup _

/-- Every enumerated match sits at or after the starting offset. -/
theorem allMatches_offset_le (d : List Nat) :
    ∀ off, ∀ p ∈ allMatches d off, off ≤ p.1 := by
  induction d with
  | nil =>
    intro off p hp
    simp [allMatches] at hp
  | cons a rest ih =>
    intro off p hp
    rw [allMatches_cons] at hp
    by_cases h : (a :: rest).length < 32
    · rw [if_pos h] at hp
      simp at hp
    · rw [if_neg h] at hp
      rcases List.mem_append.mp hp with h1 | h2
      · by_cases hl : looksLikeBytes32EvmAddress ((a :: rest).take 32) = true
        · rw [if_pos hl] at h1
          have := List.mem_singleton.mp h1
          rw [this]
        · rw [if_neg hl] at h1
          simp at h1
      · have := ih (off + 1) p h2
        omega

/-- The enumerated matches are in strictly ascending offset order. -/
theorem allMatches_pairwise (d : List Nat) :
    ∀ off, List.Pairwise (fun p q => p.1 < q.1) (allMatches d off) := by
  induction d with
  | nil =>
    intro off
    simp [allMatches]
  | cons a rest ih =>
    intro off
    rw [allMatches_cons]
    by_cases h : (a :: rest).length < 32
    · rw [if_pos h]
      exact List.Pairwise.nil
    · rw [if_neg h]
      by_cases hl : looksLikeBytes32EvmAddress ((a :: rest).take 32) = true
      · rw [if_pos hl, List.singleton_append]
        refine List.Pairwise.cons ?_ (ih (off + 1))
        intro q hq
        have := allMatches_offset_le rest (off + 1) q hq
        show off < q.1
        omega
      · rw [if_neg hl, List.nil_append]
        exact ih (off + 1)

/-- First-occurrence deduplication is the identity on a list whose
decoded address strings are pairwise distinct. -/
theorem dedupKeepFirst_eq_self (l : List PeerCand)
    (h : (l.map (fun c => c.evm)).Nodup) : dedupKeepFirst l = l := by
  induction l with
  | nil => exact dedupKeepFirst_nil
  | cons c cs ih =>
    rw [dedupKeepFirst_cons]
    rw [List.map_cons, List.nodup_cons] at h
    have hf : cs.filter (fun x => x.evm != c.evm) = cs := by
      apply List.filter_eq_self.mpr
      intro x hx
      apply bne_iff_ne.mpr
      intro he
      exact h.1 (List.mem_map.mpr ⟨x, hx, he⟩)
    rw [hf, ih h.2]

/-- C8 (amended): when the matching windows of a buffer are exactly `k`
and their decoded 20-byte values are pairwise distinct, full-enumeration
extraction yields exactly those `k` candidates, ordered by ascending
offset. (As literally stated the claim fails: windows with equal decoded
values are collapsed by the value-keyed deduplication, see the
counterexample.) -/
theorem C8_enumeration_completeness (data : List Nat) (k : Nat)
    (hlen : (allMatches data 0).length = k)
    (hnd : (((allMatches data 0).map candOf).map (fun c => c.evm)).Nodup) :
    (extractAllEvmPeers data).length = k
    ∧ extractAllEvmPeers data = (allMatches data 0).map candOf
    ∧ List.Pairwise (fun p q => p.off < q.off) (extractAllEvmPeers data) := by
  have he : extractAllEvmPeers data = (allMatches data 0).map candOf := by
    rw [extractAllEvmPeers_eq_dedup, dedupKeepFirst_eq_self _ hnd]
  refine ⟨by rw [he, List.length_map, hlen], he, ?_⟩
  rw [he]
  refine List.Pairwise.map _ ?_ (allMatches_pairwise data 0)
  intro p q hpq
  exact hpq

/-- C8 witness: a 96-byte buffer with two distinct-valued planted
windows at offsets 0 and 64, separated by 32 bytes of 0xFF filler. -/
theorem C8_enumeration_completeness_witness :
    (extractAllEvmPeers ((List.replicate 12 0 ++ List.replicate 20 1)
        ++ List.replicate 32 255 ++ (List.replicate 12 0 ++ (List.replicate 19 1 ++ [2])))).length
      = 2
    ∧ extractAllEvmPeers ((List.replicate 12 0 ++ List.replicate 20 1)
        ++ List.replicate 32 255 ++ (List.replicate 12 0 ++ (List.replicate 19 1 ++ [2])))
      = (allMatches ((List.replicate 12 0 ++ List.replicate 20 1)
        ++ List.replicate 32 255 ++ (List.replicate 12 0 ++ (List.replicate 19 1 ++ [2]))) 0).map candOf
    ∧ List.Pairwise (fun p q => p.off < q.off)
        (extractAllEvmPeers ((List.replicate 12 0 ++ List.replicate 20 1)
          ++ List.replicate 32 255 ++ (List.replicate 12 0 ++ (List.replicate 19 1 ++ [2])))) :=
  C8_enumeration_completeness _ 2 (by decide) (by decide)

/-- C8 counterexample: a buffer containing two non-overlapping valid
windows (offsets 0 and 64, separated by 32 bytes of non-matching 0xFF
filler — the enumeration shows these are the only matching windows) whose
decoded values coincide: full enumeration yields one candidate, not two. -/
theorem C8_counterexample :
    allMatches ((List.replicate 12 0 ++ List.replicate 20 1) ++ List.replicate 32 255
        ++ (List.replicate 12 0 ++ List.replicate 20 1)) 0
      = [(0, List.replicate 12 0 ++ List.replicate 20 1),
         (64, List.replicate 12 0 ++ List.replicate 20 1)]
    ∧ looksLikeBytes32EvmAddress (List.replicate 12 0 ++ List.replicate 20 1) = true
    ∧ (extractAllEvmPeers ((List.replicate 12 0 ++ List.replicate 20 1)
        ++ List.replicate 32 255 ++ (List.replicate 12 0 ++ List.replicate 20 1))).length
      = 1 :=
  ⟨by decide, by decide, by decide⟩

/-- C1 (amended): the targeted resolver derives both byte-order
addresses and checks little-endian first: the reported ByteOrder, when
not unknown, is a byte order whose derived address is the address at
which the buffer was found (LE is reported exactly when the LE-derived
address has a buffer, BE exactly when LE has none and BE has one), and
endian is unknown exactly when neither address has a buffer; when
buffers exist at both derived addresses the LE branch short-circuits,
so the ambiguity is silently resolved to LE, not reported. -/
theorem C1_byte_order_attribution (fpa : Fpa) (fetch : Fetch)
    (programId store : Addr) (eid : Nat) :
    ((derivePeerPda fpa fetch programId store eid).endian = some .LE
      ↔ (fetch (fpa [peerSeed, store, u32LE eid] programId)).isSome = true)
    ∧ ((derivePeerPda fpa fetch programId store eid).endian = some .BE
      ↔ fetch (fpa [peerSeed, store, u32LE eid] programId) = none
        ∧ (fetch (fpa [peerSeed, store, u32BE eid] programId)).isSome = true)
    ∧ ((derivePeerPda fpa fetch programId store eid).endian = some .LE
      → (derivePeerPda fpa fetch programId store eid).pda
          = some (fpa [peerSeed, store, u32LE eid] programId)
        ∧ (derivePeerPda fpa fetch programId store eid).ai
          = fetch (fpa [peerSeed, store, u32LE eid] programId))
    ∧ ((derivePeerPda fpa fetch programId store eid).endian = some .BE
      → (derivePeerPda fpa fetch programId store eid).pda
          = some (fpa [peerSeed, store, u32BE eid] programId)
        ∧ (derivePeerPda fpa fetch programId store eid).ai
          = fetch (fpa [peerSeed, store, u32BE eid] programId))
    ∧ ((derivePeerPda fpa fetch programId store eid).endian = none
      → fetch (fpa [peerSeed, store, u32LE eid] programId) = none
        ∧ fetch (fpa [peerSeed, store, u32BE eid] programId) = none) := by
  unfold derivePeerPda
  cases hLE : fetch (fpa [peerSeed, store, u32LE eid] programId) with
  | some b => simp [hLE]
  | none =>
    cases hBE : fetch (fpa [peerSeed, store, u32BE eid] programId) with
    | some b => simp [hLE, hBE]
    | none => simp [hLE, hBE]

/-- C1 witness: the LE branch at a concrete derivation function and
ledger. -/
theorem C1_byte_order_attribution_witness :
    (derivePeerPda (fun seeds pid => seeds.flatten ++ pid)
        (fun a => if a = [80, 101, 101, 114, 8, 1, 0, 0, 0, 9] then some [42] else none)
        [9] [8] 1).pda = some [80, 101, 101, 114, 8, 1, 0, 0, 0, 9]
    ∧ (derivePeerPda (fun seeds pid => seeds.flatten ++ pid)
        (fun a => if a = [80, 101, 101, 114, 8, 1, 0, 0, 0, 9] then some [42] else none)
        [9] [8] 1).ai = some [42] := by
  have h := (C1_byte_order_attribution (fun seeds pid => seeds.flatten ++ pid)
      (fun a => if a = [80, 101, 101, 114, 8, 1, 0, 0, 0, 9] then some [42] else none)
      [9] [8] 1).2.2.1 (by decide)
  exact ⟨h.1, by rw [h.2]; decide⟩

/-- C1 counterexample: with buffers present at both derived addresses
(and the two addresses different), the resolver's result is identical to
the result when only the little-endian address has a buffer — the
double-match ambiguity is invisible in the output, contradicting the
claim that it is treated as a reportable anomaly. -/
theorem C1_counterexample :
    derivePeerPda (fun seeds pid => seeds.flatten ++ pid) (fun _ => some [42]) [9] [8] 1
      = derivePeerPda (fun seeds pid => seeds.flatten ++ pid)
          (fun a => if a = [80, 101, 101, 114, 8, 1, 0, 0, 0, 9] then some [42] else none)
          [9] [8] 1
    ∧ (fun (_ : Addr) => some [42]) ([80, 101, 101, 114, 8, 0, 0, 0, 1, 9] : Addr)
        = some [42]
    ∧ ([80, 101, 101, 114, 8, 1, 0, 0, 0, 9] : Addr)
        ≠ [80, 101, 101, 114, 8, 0, 0, 0, 1, 9] :=
  ⟨by decide, rfl, by decide⟩

/-- C6: targeted mode: when neither byte-order derived address has a
buffer the row reports exists=false; when a buffer was found but no
32-byte window satisfies the predicate, the row reports exists=true with
null bytes32 and null remote address. -/
theorem C6_exists_and_null_address (fpa : Fpa) (fetch : Fetch)
    (programId store : Addr) (eid : Nat) :
    (fetch (fpa [peerSeed, store, u32LE eid] programId) = none
      → fetch (fpa [peerSeed, store, u32BE eid] programId) = none
      → (readOne fpa fetch programId store eid).exists_ = false)
    ∧ (∀ b : Buf,
        (derivePeerPda fpa fetch programId store eid).ai = some b
        → extractPeerBytes32 b = none
        → (readOne fpa fetch programId store eid).exists_ = true
          ∧ (readOne fpa fetch programId store eid).bytes32 = none
          ∧ (readOne fpa fetch programId store eid).evm = none) := by
  constructor
  · intro hLE hBE
    unfold readOne rowOfLookup derivePeerPda
    simp [hLE, hBE]
  · intro b hai hnone
    unfold readOne rowOfLookup
    rw [hai]
    simp [hnone]

/-- C6 witness: the empty-ledger case and the no-matching-window case at
concrete inputs. -/
theorem C6_exists_and_null_address_witness :
    (readOne (fun seeds pid => seeds.flatten ++ pid) (fun _ => none) [9] [8] 1).exists_ = false
    ∧ ((readOne (fun seeds pid => seeds.flatten ++ pid) (fun _ => some [5, 5]) [9] [8] 1).exists_
          = true
      ∧ (readOne (fun seeds pid => seeds.flatten ++ pid) (fun _ => some [5, 5]) [9] [8] 1).bytes32
          = none
      ∧ (readOne (fun seeds pid => seeds.flatten ++ pid) (fun _ => some [5, 5]) [9] [8] 1).evm
          = none) :=
  ⟨(C6_exists_and_null_address (fun seeds pid => seeds.flatten ++ pid)
      (fun _ => none) [9] [8] 1).1 rfl rfl,
   (C6_exists_and_null_address (fun seeds pid => seeds.flatten ++ pid)
      (fun _ => some [5, 5]) [9] [8] 1).2 [5, 5] (by decide) (by decide)⟩

/-- Unfolding equation of the batch loop on a non-empty id list. -/
theorem batchLoop_cons (fpa : Fpa) (fetch : FetchE) (programId store : Addr)
    (eid : Nat) (rest : List Nat) :
    batchLoop fpa fetch programId store (eid :: rest)
      = match readOneE fpa fetch programId store eid with
        | .ok r => ((if r.exists_ then [r] else [])
              ++ (batchLoop fpa fetch programId store rest).1,
            (batchLoop fpa fetch programId store rest).2)
        | .error _ => batchLoop fpa fetch programId store rest := rfl

/-- C9 (amended): a failure while processing one identifier does not
abort the batch: the item is skipped, the remaining identifiers are
still processed, and nothing at all is logged for the failure (the catch
block is empty, so the loop's console output is unchanged). -/
theorem C9_batch_partial_results (fpa : Fpa) (fetch : FetchE) (programId store : Addr)
    (pre post : List Nat) (eid : Nat) (e : String)
    (herr : readOneE fpa fetch programId store eid = .error e) :
    batchLoop fpa fetch programId store (pre ++ eid :: post)
      = ((batchLoop fpa fetch programId store pre).1
          ++ (batchLoop fpa fetch programId store post).1,
         (batchLoop fpa fetch programId store pre).2
          ++ (batchLoop fpa fetch programId store post).2) := by
  induction pre with
  | nil =>
    simp only [List.nil_append, batchLoop_cons, herr]
    simp [batchLoop]
  | cons x xs ih =>
    simp only [List.cons_append, batchLoop_cons]
    cases hx : readOneE fpa fetch programId store x with
    | ok r =>
      simp only [hx]
      rw [ih]
      simp [List.append_assoc]
    | error e2 =>
      simp only [hx]
      exact ih

/-- C9 witness: the failing identifier 2 between identifiers 1 and 3. -/
theorem C9_batch_partial_results_witness :
    batchLoop (fun seeds pid => seeds.flatten ++ pid)
        (fun a => if a = [80, 101, 101, 114, 8, 2, 0, 0, 0, 9]
          then .error "boom" else .ok (some [42]))
        [9] [8] ([1] ++ 2 :: [3])
      = ((batchLoop (fun seeds pid => seeds.flatten ++ pid)
            (fun a => if a = [80, 101, 101, 114, 8, 2, 0, 0, 0, 9]
              then .error "boom" else .ok (some [42])) [9] [8] [1]).1
          ++ (batchLoop (fun seeds pid => seeds.flatten ++ pid)
            (fun a => if a = [80, 101, 101, 114, 8, 2, 0, 0, 0, 9]
              then .error "boom" else .ok (some [42])) [9] [8] [3]).1,
         (batchLoop (fun seeds pid => seeds.flatten ++ pid)
            (fun a => if a = [80, 101, 101, 114, 8, 2, 0, 0, 0, 9]
              then .error "boom" else .ok (some [42])) [9] [8] [1]).2
          ++ (batchLoop (fun seeds pid => seeds.flatten ++ pid)
            (fun a => if a = [80, 101, 101, 114, 8, 2, 0, 0, 0, 9]
              then .error "boom" else .ok (some [42])) [9] [8] [3]).2) :=
  C9_batch_partial_results _ _ _ _ [1] [3] 2 "boom" rfl

/-- C9 counterexample: a concrete failing item: the batch continues past
it (identifiers 1 and 3 still produce rows) but the loop's log output is
empty — the failure is swallowed, not logged, contradicting the claim's
"caught and logged". -/
theorem C9_counterexample :
    readOneE (fun seeds pid => seeds.flatten ++ pid)
        (fun a => if a = [80, 101, 101, 114, 8, 2, 0, 0, 0, 9]
          then .error "boom" else .ok (some [42]))
        [9] [8] 2 = .error "boom"
    ∧ ((batchLoop (fun seeds pid => seeds.flatten ++ pid)
        (fun a => if a = [80, 101, 101, 114, 8, 2, 0, 0, 0, 9]
          then .error "boom" else .ok (some [42]))
        [9] [8] [1, 2, 3]).1).map Row.eid = [1, 3]
    ∧ (batchLoop (fun seeds pid => seeds.flatten ++ pid)
        (fun a => if a = [80, 101, 101, 114, 8, 2, 0, 0, 0, 9]
          then .error "boom" else .ok (some [42]))
        [9] [8] [1, 2, 3]).2 = [] :=
  ⟨rfl, by decide, by decide⟩

/-- Every enumerated match satisfies the window predicate. -/
theorem allMatches_looksLike (d : List Nat) :
    ∀ off p, p ∈ allMatches d off → looksLikeBytes32EvmAddress p.2 = true := by
  induction d with
  | nil =>
    intro off p hp
    simp [allMatches] at hp
  | cons a rest ih =>
    intro off p hp
    rw [allMatches_cons] at hp
    by_cases h : (a :: rest).length < 32
    · rw [if_pos h] at hp
      simp at hp
    · rw [if_neg h] at hp
      rcases List.mem_append.mp hp with h1 | h2
      · by_cases hl : looksLikeBytes32EvmAddress ((a :: rest).take 32) = true
        · rw [if_pos hl] at h1
          rw [List.mem_singleton.mp h1]
          exact hl
        · rw [if_neg hl] at h1
          simp at h1
      · exact ih (off + 1) p h2

/-- Every byte of an enumerated window is a byte of the buffer. -/
theorem allMatches_window_mem (d : List Nat) :
    ∀ off p, p ∈ allMatches d off → ∀ x ∈ p.2, x ∈ d := by
  induction d with
  | nil =>
    intro off p hp
    simp [allMatches] at hp
  | cons a rest ih =>
    intro off p hp x hx
    rw [allMatches_cons] at hp
    by_cases h : (a :: rest).length < 32
    · rw [if_pos h] at hp
      simp at hp
    · rw [if_neg h] at hp
      rcases List.mem_append.mp hp with h1 | h2
      · by_cases hl : looksLikeBytes32EvmAddress ((a :: rest).take 32) = true
        · rw [if_pos hl] at h1
          rw [List.mem_singleton.mp h1] at hx
          exact List.mem_of_mem_take hx
        · rw [if_neg hl] at h1
          simp at h1
      · exact List.mem_cons_of_mem a (ih (off + 1) p h2 x hx)

/-- The only hex digit rendering as the character 0 is the digit 0. -/
theorem hexDigit_eq_zero (m : Nat) (hm : m < 16) (h : hexDigit m = '0') : m = 0 := by
  interval_cases m
  · rfl
  all_goals exact absurd h (by decide)

/-- A byte whose two hex characters are 00 is the byte 0. -/
theorem hexCharsOfByte_eq_zero (a : Nat) (ha : a < 256)
    (h : hexCharsOfByte a = hexCharsOfByte 0) : a = 0 := by
  unfold hexCharsOfByte at h
  injection h with h1 h2
  injection h2 with h2 _
  have d1 := hexDigit_eq_zero (a / 16 % 16) (Nat.mod_lt _ (by norm_num))
    (h1.trans (by decide))
  have d2 := hexDigit_eq_zero (a % 16) (Nat.mod_lt _ (by norm_num))
    (h2.trans (by decide))
  omega

/-- Bytes below 256 whose hex rendering is the all-zero rendering are all
zero. -/
theorem hexFlatten_zero (u : List Nat) :
    ∀ (_ : ∀ x ∈ u, x < 256) (n : Nat), u.length = n →
    (u.map hexCharsOfByte).flatten = ((List.replicate n 0).map hexCharsOfByte).flatten →
    ∀ x ∈ u, x = 0 := by
  induction u with
  | nil =>
    intro _ n _ _ x hx
    simp at hx
  | cons a u' ih =>
    intro hb n hn h x hx
    cases n with
    | zero => simp at hn
    | succ m =>
      rw [List.replicate_succ, List.map_cons, List.map_cons, List.flatten_cons,
        List.flatten_cons] at h
      have hp := List.append_inj h (by rfl)
      have hm : u'.length = m := by
        simp at hn
        omega
      rcases List.mem_cons.mp hx with rfl | hx'
      · exact hexCharsOfByte_eq_zero x (hb x (List.mem_cons_self x u')) hp.1
      · exact ih (fun y hy => hb y (List.mem_cons_of_mem _ hy)) m hm hp.2 x hx'

/-- The character data of a 0x-prefixed rendering. -/
theorem data_oxmk (l : List Char) : ("0x" ++ String.mk l).data = '0' :: 'x' :: l := rfl

/-- No candidate produced by the scanner decodes to the all-zero
20-byte value: the predicate demands a non-zero tail and hex rendering
is faithful on bytes. -/
theorem extract_no_zero_evm (d : List Nat) (hb : ∀ x ∈ d, x < 256) :
    ∀ c ∈ extractAllEvmPeers d, c.evm ≠ bytes32ToEvm (List.replicate 32 0) := by
  intro c hc heq
  rw [extractAllEvmPeers_eq_dedup] at hc
  have hc2 := dedupKeepFirst_subset _ c hc
  rcases List.mem_map.mp hc2 with ⟨p, hp, hcand⟩
  have hlook := allMatches_looksLike d 0 p hp
  have hwmem := allMatches_window_mem d 0 p hp
  unfold looksLikeBytes32EvmAddress at hlook
  simp only [Bool.and_eq_true] at hlook
  obtain ⟨⟨hlen', hhead⟩, htail⟩ := hlook
  have hlen : p.2.length = 32 := by simpa using hlen'
  have hevm : c.evm = bytes32ToEvm p.2 := by
    rw [← hcand]
    simp [candOf]
  rw [hevm] at heq
  unfold bytes32ToEvm at heq
  have hdata := congrArg String.data heq
  rw [data_oxmk, data_oxmk] at hdata
  injection hdata with _ hdata
  injection hdata with _ hdata
  have hrep : (List.replicate 32 (0 : Nat)).drop 12 = List.replicate 20 0 := by
    simp
  rw [hrep] at hdata
  have hdlen : (p.2.drop 12).length = 20 := by
    rw [List.length_drop, hlen]
  have hz := hexFlatten_zero (p.2.drop 12)
    (fun x hx => hb x (hwmem x (List.mem_of_mem_drop hx))) 20 hdlen hdata
  have hall : (p.2.drop 12).all (· == 0) = true :=
    List.all_eq_true.mpr (fun x hx => by simpa using hz x hx)
  rw [Bool.not_eq_true'] at htail
  rw [hall] at htail
  simp at htail

/-- Unfolding equation of the attribution loop on a non-empty candidate
list. -/
theorem attrLoop_cons (fpa : Fpa) (programId store acc : Addr) (eid : Nat) (rest : List Nat) :
    attrLoop fpa programId store acc (eid :: rest)
      = if peerPdaFor fpa programId store eid .LE = acc then some (eid, .LE)
        else if peerPdaFor fpa programId store eid .BE = acc then some (eid, .BE)
        else attrLoop fpa programId store acc rest := rfl

/-- A successful attribution names a candidate identifier whose derived
address under the reported byte order equals the account's address. -/
theorem attrLoop_sound (fpa : Fpa) (programId store acc : Addr) :
    ∀ (cands : List Nat) (n : Nat) (en : Endian),
      attrLoop fpa programId store acc cands = some (n, en)
      → n ∈ cands ∧ peerPdaFor fpa programId store n en = acc := by
  intro cands
  induction cands with
  | nil =>
    intro n en h
    simp [attrLoop] at h
  | cons e rest ih =>
    intro n en h
    rw [attrLoop_cons] at h
    by_cases h1 : peerPdaFor fpa programId store e .LE = acc
    · rw [if_pos h1] at h
      injection h with h'
      injection h' with he hen
      subst he
      subst hen
      exact ⟨List.mem_cons_self _ _, h1⟩
    · rw [if_neg h1] at h
      by_cases h2 : peerPdaFor fpa programId store e .BE = acc
      · rw [if_pos h2] at h
        injection h with h'
        injection h' with he hen
        subst he
        subst hen
        exact ⟨List.mem_cons_self _ _, h2⟩
      · rw [if_neg h2] at h
        have := ih n en h
        exact ⟨List.mem_cons_of_mem _ this.1, this.2⟩

/-- Attribution fails exactly when no candidate identifier's derived
address, under either byte order, equals the account's address. -/
theorem attrLoop_none_iff (fpa : Fpa) (programId store acc : Addr) :
    ∀ cands : List Nat,
      (attrLoop fpa programId store acc cands = none
        ↔ ∀ e ∈ cands, peerPdaFor fpa programId store e .LE ≠ acc
            ∧ peerPdaFor fpa programId store e .BE ≠ acc) := by
  intro cands
  induction cands with
  | nil => simp [attrLoop]
  | cons e rest ih =>
    rw [attrLoop_cons]
    by_cases h1 : peerPdaFor fpa programId store e .LE = acc
    · rw [if_pos h1]
      simp [h1]
    · rw [if_neg h1]
      by_cases h2 : peerPdaFor fpa programId store e .BE = acc
      · rw [if_pos h2]
        simp [h1, h2]
      · rw [if_neg h2]
        rw [ih]
        constructor
        · intro hall
          intro x hx
          rcases List.mem_cons.mp hx with rfl | hx'
          · exact ⟨h1, h2⟩
          · exact hall x hx'
        · intro hall x hx
          exact hall x (List.mem_cons_of_mem _ hx)

/-- C2 (amended): for every program-owned account whose buffer length is
1654, the enumerate script reads the 32 bytes at the fixed offset 8 as
the record's remote-address candidate (it does not run the sliding
32-byte-window extractor), and it attributes the account to a candidate
NumericChainId by recomputing the derived address under both byte orders
for each identifier in the candidate set and checking address
equality. -/
theorem C2_fixed_offset_and_attribution (fpa : Fpa) (programId store acc : Addr)
    (cands : List Nat) (accs : List (Addr × Buf)) (data : Buf)
    (hmem : (acc, data) ∈ accs) (hlen : data.length = 1654) :
    (⟨acc, data.length, hex ((data.drop 8).take 32),
        bytes32ToEvm ((data.drop 8).take 32)⟩ : EnumRow) ∈ rowsOf (candidatesOf accs)
    ∧ (∀ (n : Nat) (en : Endian), attrLoop fpa programId store acc cands = some (n, en)
        → n ∈ cands ∧ peerPdaFor fpa programId store n en = acc)
    ∧ (attrLoop fpa programId store acc cands = none
        ↔ ∀ e ∈ cands, peerPdaFor fpa programId store e .LE ≠ acc
            ∧ peerPdaFor fpa programId store e .BE ≠ acc) := by
  refine ⟨?_, attrLoop_sound fpa programId store acc cands,
    attrLoop_none_iff fpa programId store acc cands⟩
  unfold rowsOf candidatesOf
  apply List.mem_map.mpr
  refine ⟨(acc, data), List.mem_filter.mpr ⟨hmem, by simp [hlen]⟩, rfl⟩

/-- C2 witness: a single 1654-byte zero account stored at the LE-derived
address of identifier 30101. -/
theorem C2_fixed_offset_and_attribution_witness :
    (⟨[80, 101, 101, 114, 8, 149, 117, 0, 0, 9], (List.replicate 1654 0).length,
        hex (((List.replicate 1654 0).drop 8).take 32),
        bytes32ToEvm (((List.replicate 1654 0).drop 8).take 32)⟩ : EnumRow)
      ∈ rowsOf (candidatesOf [([80, 101, 101, 114, 8, 149, 117, 0, 0, 9], List.replicate 1654 0)])
    ∧ (∀ (n : Nat) (en : Endian),
        attrLoop (fun seeds pid => seeds.flatten ++ pid) [9] [8]
            [80, 101, 101, 114, 8, 149, 117, 0, 0, 9] CANDIDATE_EIDS = some (n, en)
        → n ∈ CANDIDATE_EIDS
          ∧ peerPdaFor (fun seeds pid => seeds.flatten ++ pid) [9] [8] n en
              = [80, 101, 101, 114, 8, 149, 117, 0, 0, 9])
    ∧ (attrLoop (fun seeds pid => seeds.flatten ++ pid) [9] [8]
          [80, 101, 101, 114, 8, 149, 117, 0, 0, 9] CANDIDATE_EIDS = none
        ↔ ∀ e ∈ CANDIDATE_EIDS,
            peerPdaFor (fun seeds pid => seeds.flatten ++ pid) [9] [8] e .LE
                ≠ [80, 101, 101, 114, 8, 149, 117, 0, 0, 9]
            ∧ peerPdaFor (fun seeds pid => seeds.flatten ++ pid) [9] [8] e .BE
                ≠ [80, 101, 101, 114, 8, 149, 117, 0, 0, 9]) :=
  C2_fixed_offset_and_attribution (fun seeds pid => seeds.flatten ++ pid) [9] [8]
    [80, 101, 101, 114, 8, 149, 117, 0, 0, 9] CANDIDATE_EIDS
    [([80, 101, 101, 114, 8, 149, 117, 0, 0, 9], List.replicate 1654 0)]
    (List.replicate 1654 0) (List.mem_singleton.mpr rfl) (by rw [List.length_replicate])

set_option maxRecDepth 20000

/-- C2 counterexample: a 1654-byte account whose only non-zero byte sits
at index 131: the script's produced candidate is the all-zero address
read at fixed offset 8, a value the full-enumeration extractor can never
produce for any buffer of bytes — so the script's candidates are not the
extractor's candidates. -/
theorem C2_counterexample :
    (rowsOf (candidatesOf
        [([1], List.replicate 131 0 ++ 171 :: List.replicate 1522 0)])).map
        (fun r => r.peerEvm)
      = [bytes32ToEvm (List.replicate 32 0)]
    ∧ ∀ c ∈ extractAllEvmPeers (List.replicate 131 0 ++ 171 :: List.replicate 1522 0),
        c.evm ≠ bytes32ToEvm (List.replicate 32 0) := by
  constructor
  · decide
  · intro c hc
    refine extract_no_zero_evm _ ?_ c hc
    intro x hx
    rcases List.mem_append.mp hx with h1 | h2
    · rw [List.eq_of_mem_replicate h1]
      norm_num
    · rcases List.mem_cons.mp h2 with rfl | h3
      · norm_num
      · rw [List.eq_of_mem_replicate h3]
        norm_num

/-- Every resolved entry's chain id is the unattributed marker or a
candidate identifier, hence at least -1. -/
theorem resolvedOf_eid_ge (fpa : Fpa) (programId store : Addr) (cands : List Nat)
    (accs : List (Addr × Buf)) :
    ∀ x ∈ resolvedOf fpa programId store cands accs, -1 ≤ x.eid := by
  intro x hx
  rcases List.mem_map.mp hx with ⟨r, _, rfl⟩
  unfold attributeRow
  cases h : attrLoop fpa programId store r.acc cands with
  | none => simp
  | some p =>
    cases p with
    | mk n en =>
      simp
      omega

/-- C3 (amended): the enumerate script's printed list is a permutation
of the resolved list (no record is discarded; one resolved entry per
length-1654 account) sorted ascending by chain id; because the
unattributed marker is -1, which is below every attributed id,
unattributed records are reported first, before the attributed ones, not
last. The batch mode of the CLI likewise sorts its rows ascending by
chain id. -/
theorem C3_output_order (fpa : Fpa) (programId store : Addr) (cands : List Nat)
    (accs : List (Addr × Buf)) :
    (resolvedOf fpa programId store cands accs).length = (candidatesOf accs).length
    ∧ (enumerateOutput fpa programId store cands accs).Perm
        (resolvedOf fpa programId store cands accs)
    ∧ List.Pairwise (fun a b => a.eid ≤ b.eid)
        (enumerateOutput fpa programId store cands accs)
    ∧ List.Pairwise (fun a b => b.eid = -1 → a.eid = -1)
        (enumerateOutput fpa programId store cands accs)
    ∧ (∀ l : List Row, (sortRowsByEid l).Perm l
        ∧ List.Pairwise (fun a b => a.eid ≤ b.eid) (sortRowsByEid l)) := by
  have hperm := List.perm_insertionSort (fun a b : ResolvedRow => a.eid ≤ b.eid)
    (resolvedOf fpa programId store cands accs)
  have hsort := List.sorted_insertionSort (fun a b : ResolvedRow => a.eid ≤ b.eid)
    (resolvedOf fpa programId store cands accs)
  refine ⟨?_, hperm, hsort, ?_, ?_⟩
  · unfold resolvedOf rowsOf
    rw [List.length_map, List.length_map]
  · refine List.Pairwise.imp_of_mem ?_ hsort
    intro a b ha _ hab hbeq
    have ha2 : a ∈ resolvedOf fpa programId store cands accs := hperm.subset ha
    have ha3 := resolvedOf_eid_ge fpa programId store cands accs a ha2
    omega
  · intro l
    exact ⟨List.perm_insertionSort _ l, List.sorted_insertionSort _ l⟩

/-- C3 counterexample: one attributed account (the LE address of 30101)
and one unattributed account: the printed order is unattributed first
(marker -1 sorts lowest), attributed last — contradicting "unattributed
results are reported last". Nothing is discarded. -/
theorem C3_counterexample :
    (enumerateOutput (fun seeds pid => seeds.flatten ++ pid) [9] [8] CANDIDATE_EIDS
        [([80, 101, 101, 114, 8, 149, 117, 0, 0, 9], List.replicate 1654 0),
         ([7], List.replicate 1654 0)]).map (fun r => r.eid)
      = [-1, 30101] := by decide

/-- Unfolding equation of the option-collection loop at the last
token. -/
theorem collectArgs_cons₁ (k : String) (m : List (String × String)) :
    collectArgs [k] m
      = if startsDashDash k = true then setKV m (jsSlice2 k) "true" else m := rfl

/-- Unfolding equation of the option-collection loop with a following
token. -/
theorem collectArgs_cons₂ (k next : String) (rest : List String)
    (m : List (String × String)) :
    collectArgs (k :: next :: rest) m
      = if startsDashDash k = true then
          (if (next != "" && !startsDashDash next) = true then
            collectArgs rest (setKV m (jsSlice2 k) next)
          else collectArgs (next :: rest) (setKV m (jsSlice2 k) "true"))
        else collectArgs (next :: rest) m := rfl

/-- C10 (amended): an option token followed by a NONEMPTY token not
starting with "--" consumes that token as its value (an empty-string
token is not consumed, a quirk of the truthiness test); hence --list
evaluates to true when it is last, followed by a "--" token, followed by
an empty token, or followed by the literal token "true" (consumed as the
value "true"), and to false when it consumes any other value; a repeated
option keeps its last occurrence. -/
theorem C10_parseArgs_flags :
    (∀ t : String,
      (parseArgs ["--program", "p", "--list", t]).map Args.list
        = some (t == "" || startsDashDash t || t == "true"))
    ∧ (∀ (k next : String) (rest : List String) (m : List (String × String)),
        startsDashDash k = true →
        collectArgs (k :: next :: rest) m
          = if (next != "" && !startsDashDash next) = true then
              collectArgs rest (setKV m (jsSlice2 k) next)
            else collectArgs (next :: rest) (setKV m (jsSlice2 k) "true"))
    ∧ (∀ v w : String, v ≠ "" → startsDashDash v = false
        → w ≠ "" → startsDashDash w = false
        → (parseArgs ["--program", "p", "--rpc", v, "--rpc", w]).map Args.rpc = some w) := by
  refine ⟨?_, ?_, ?_⟩
  · intro t
    have e0 : collectArgs ["--program", "p", "--list", t] []
        = collectArgs ["--list", t] [("program", "p")] := rfl
    by_cases hcond : (t != "" && !startsDashDash t) = true
    · have hparts := hcond
      rw [Bool.and_eq_true] at hparts
      have h1 : (t == "") = false := by
        have hx := hparts.1
        unfold bne at hx
        rw [Bool.not_eq_true'] at hx
        exact hx
      have h2 : startsDashDash t = false := by
        have hx := hparts.2
        rw [Bool.not_eq_true'] at hx
        exact hx
      have em : collectArgs ["--program", "p", "--list", t] []
          = [("list", t), ("program", "p")] := by
        rw [e0, collectArgs_cons₂, if_pos (show startsDashDash "--list" = true from rfl),
          if_pos hcond]
        rfl
      have ep : parseArgs ["--program", "p", "--list", t]
          = some ⟨"https://api.mainnet-beta.solana.com", "p", none, (t == "true"),
              none, false⟩ := by
        simp only [parseArgs]
        rw [em]
        rfl
      rw [ep, h1, h2]
      simp
    · have em1 : collectArgs ["--program", "p", "--list", t] []
          = collectArgs [t] [("list", "true"), ("program", "p")] := by
        rw [e0, collectArgs_cons₂, if_pos (show startsDashDash "--list" = true from rfl),
          if_neg hcond]
        rfl
      by_cases ht : t = ""
      · subst ht
        decide
      · have hd : startsDashDash t = true := by
          by_contra hdf
          apply hcond
          have h1 : (t != "") = true := bne_iff_ne.mpr ht
          have h2 : startsDashDash t = false := eq_false_of_ne_true hdf
          rw [h1, h2]
          rfl
        have em2 : collectArgs [t] [("list", "true"), ("program", "p")]
            = [(jsSlice2 t, "true"), ("list", "true"), ("program", "p")] := by
          rw [collectArgs_cons₁, if_pos hd]
          rfl
        have hrhs : (t == "" || startsDashDash t || t == "true") = true := by
          rw [hd]
          simp
        rw [hrhs]
        by_cases hp : jsSlice2 t = "program"
        · simp only [parseArgs]
          rw [em1, em2, hp]
          rfl
        · by_cases hq : jsSlice2 t = "list"
          · simp only [parseArgs]
            rw [em1, em2, hq]
            rfl
          · have hp' : ((jsSlice2 t, "true").1 == "program") = false :=
              beq_eq_false_iff_ne.mpr hp
            have hq' : ((jsSlice2 t, "true").1 == "list") = false :=
              beq_eq_false_iff_ne.mpr hq
            have g1 : getKV [(jsSlice2 t, "true"), ("list", "true"), ("program", "p")]
                "program" = some "p" := by
              unfold getKV
              rw [List.find?_cons_of_neg _ (by rw [hp']; exact Bool.false_ne_true)]
              rfl
            have g2 : getKV [(jsSlice2 t, "true"), ("list", "true"), ("program", "p")]
                "list" = some "true" := by
              unfold getKV
              rw [List.find?_cons_of_neg _ (by rw [hq']; exact Bool.false_ne_true)]
              rfl
            simp only [parseArgs]
            rw [em1, em2, g1, g2]
            rfl
  · intro k next rest m hk
    rw [collectArgs_cons₂, if_pos hk]
  · intro v w hv1 hv2 hw1 hw2
    have hv' : (v != "" && !startsDashDash v) = true := by
      have h1 : (v != "") = true := bne_iff_ne.mpr hv1
      rw [h1, hv2]
      rfl
    have hw' : (w != "" && !startsDashDash w) = true := by
      have h1 : (w != "") = true := bne_iff_ne.mpr hw1
      rw [h1, hw2]
      rfl
    have e : collectArgs ["--program", "p", "--rpc", v, "--rpc", w] []
        = [("rpc", w), ("rpc", v), ("program", "p")] := by
      rw [show collectArgs ["--program", "p", "--rpc", v, "--rpc", w] []
          = collectArgs ["--rpc", v, "--rpc", w] [("program", "p")] from rfl]
      rw [collectArgs_cons₂, if_pos (show startsDashDash "--rpc" = true from rfl),
        if_pos hv']
      rw [collectArgs_cons₂, if_pos (show startsDashDash "--rpc" = true from rfl),
        if_pos hw']
      rfl
    simp only [parseArgs]
    rw [e]
    rfl

/-- C10 witness: the repeated --rpc option keeps the last value. -/
theorem C10_parseArgs_flags_witness :
    (parseArgs ["--program", "p", "--rpc", "u", "--rpc", "x"]).map Args.rpc = some "x" :=
  C10_parseArgs_flags.2.2 "u" "x" (by decide) rfl (by decide) rfl

/-- C10 counterexample: --list followed by the ordinary token "true"
(which does not start with "--") evaluates to TRUE, because the token is
consumed as the value "true" — the claim says a flag followed by any
non-"--" token evaluates to false. -/
theorem C10_counterexample :
    (parseArgs ["--program", "p", "--list", "true"]).map Args.list = some true
    ∧ startsDashDash "true" = false :=
  ⟨rfl, rfl⟩

/-- C7 witness: the short-buffer case at a concrete 3-byte buffer. -/
theorem C7_extractor_total_and_stateless_witness :
    extractAllEvmPeers [1, 2, 3] = [] ∧ extractPeerBytes32 [1, 2, 3] = none :=
  (C7_extractor_total_and_stateless [1, 2, 3]).1 (by decide)
